import Mathlib

/-!
# Verification of the CorePackages extractor core

Shallow embedding of the package registry and license-aware dependency
resolution engine of the `extractor` crate: identity normalization
(`package_name.rs`), rewrite resolution (`package_rewrite.rs`), lock
parsing (`package_lock.rs`), license classification
(`license_extractor.rs`), the recursive license check (`package/mod.rs`
and the historical `sources/common/package_registry.rs` +  `domain.rs`
pipeline), and dependency-tree rendering (`package_tree.rs`,
`stream.rs`).

Conventions of the embedding:
* `semver::Version` values are carried as their canonical string
  rendering (the code only ever compares and prints them through
  `to_string()`).
* Rust `HashMap`/`BTreeMap` values are association lists; lookups mirror
  the map semantics (first matching key).
* Filesystem and process-global inputs that the code reads from outside
  the crate (the rewrite-rule table loaded from a resources JSON, the
  license corpus, the walked file list, the similarity scorer of the
  external `askalono` crate) are explicit parameters, as §6 of the
  design document lists them as external inputs of the core.
* Recursive graph walks are fuel-indexed: `none` means the recursion did
  not complete within the given fuel bound, so "terminates" is
  "some fuel returns `some`" and "diverges" is "`none` for every fuel".
-/

namespace Extractor

/-! ## String primitives

Kernel-reducible (structurally recursive) models of the string
operations the Rust code uses, over the character list of a `String`,
so that closed runs of every embedded function evaluate by `rfl` /
`decide`.  Semantics follow Rust's `str` methods (`split`, `replace`,
`trim`, `starts_with`, …) for the non-empty literal patterns the code
uses. -/

/-- `some remainder` when `pat` is a prefix of `l`. -/
def stripPrefHelper : List Char → List Char → Option (List Char)
  | [], l => some l
  | _ :: _, [] => none
  | p :: ps, c :: cs => if p = c then stripPrefHelper ps cs else none

/-- Split on non-overlapping occurrences of `sep`, left to right;
`curRev` is the current piece reversed, `fuel` bounds the scan. -/
def splitListGo (sep : List Char) : Nat → List Char → List Char →
    List (List Char)
  | _, curRev, [] => [curRev.reverse]
  | 0, curRev, l => [curRev.reverse ++ l]
  | fuel + 1, curRev, c :: rest =>
    match stripPrefHelper sep (c :: rest) with
    | some remainder => curRev.reverse :: splitListGo sep fuel [] remainder
    | none => splitListGo sep fuel (c :: curRev) rest

/-- `str::split` with a non-empty literal pattern (also
`String::splitOn`): `"a  b"` on `" "` gives `["a", "", "b"]`, the empty
string gives `[""]`. -/
def strSplitOn (s sep : String) : List String :=
  if sep.data.isEmpty then [s]
  else (splitListGo sep.data s.data.length [] s.data).map String.mk

/-- Left-to-right non-overlapping `str::replace`. -/
def strReplaceGo (pat repl : List Char) : Nat → List Char → List Char
  | _, [] => []
  | 0, l => l
  | fuel + 1, c :: rest =>
    match stripPrefHelper pat (c :: rest) with
    | some remainder => repl ++ strReplaceGo pat repl fuel remainder
    | none => c :: strReplaceGo pat repl fuel rest

def strReplace (s pat repl : String) : String :=
  if pat.data.isEmpty then s
  else String.mk (strReplaceGo pat.data repl.data s.data.length s.data)

def dropWhileWs : List Char → List Char
  | [] => []
  | c :: rest => if c.isWhitespace then dropWhileWs rest else c :: rest

/-- `str::trim` (whitespace at both ends). -/
def strTrim (s : String) : String :=
  String.mk ((dropWhileWs (dropWhileWs s.data.reverse).reverse))

/-- `str::starts_with` a literal. -/
def strStartsWith (s pat : String) : Bool :=
  (stripPrefHelper pat.data s.data).isSome

/-- `str::ends_with` a literal. -/
def strEndsWith (s pat : String) : Bool :=
  (stripPrefHelper pat.data.reverse s.data.reverse).isSome

def strToLower (s : String) : String :=
  String.mk (s.data.map Char.toLower)

def strDrop (s : String) (n : Nat) : String :=
  String.mk (s.data.drop n)

def strDropRight (s : String) (n : Nat) : String :=
  String.mk (s.data.take (s.data.length - n))

def strIntercalate (sep : String) (parts : List String) : String :=
  String.mk (List.intercalate sep.data (parts.map String.data))

/-- `str::contains` for a non-empty literal pattern. -/
def containsSub (s pat : String) : Bool :=
  (strSplitOn s pat).length ≥ 2

/-- `str::lines`: split on `'\n'`, drop one trailing empty piece, strip a
trailing `'\r'` from each line. -/
def rustLines (s : String) : List String :=
  let parts := strSplitOn s "\n"
  let parts := if parts.getLast? = some "" then parts.dropLast else parts
  parts.map (fun l => if strEndsWith l "\r" then strDropRight l 1 else l)

/-! ## Kebab-case identity normalization

`PackageName::new` and the lock parser normalize names with the external
`convert_case` crate (`to_case(Case::Kebab)`).  Modelled from the spec:
"convert to kebab-case" — split words at `_`, `-`, space, at a
lowercase→uppercase boundary and at an acronym (uppercase,uppercase,
lowercase) boundary, lowercase every word and join with `-`.  Digit
boundaries of the crate are not modelled; theorems only apply it to
names without digits adjacent to case changes. -/

def isWordDelim (c : Char) : Bool :=
  c = '_' || c = '-' || c = ' '

/-- Word splitter for the kebab-case model.  `acc` is the current word,
reversed. -/
def splitWordsGo : List Char → List Char → List (List Char)
  | acc, [] => [acc.reverse]
  | acc, c :: rest =>
    if isWordDelim c then
      acc.reverse :: splitWordsGo [] rest
    else
      match acc with
      | [] => splitWordsGo [c] rest
      | p :: _ =>
        if p.isLower && c.isUpper then
          acc.reverse :: splitWordsGo [c] rest
        else if p.isUpper && c.isUpper &&
            (match rest with | r :: _ => r.isLower | [] => false) then
          acc.reverse :: splitWordsGo [c] rest
        else
          splitWordsGo (c :: acc) rest

def kebabCase (s : String) : String :=
  let words := (splitWordsGo [] s.data).filter (fun w => ¬ w.isEmpty)
  strIntercalate "-" (words.map (fun w => String.mk (w.map Char.toLower)))

/-- Modelled from the spec: `format_registry_name` (its definition is not
among the staged sources, only its caller in `package_lock.rs`): "apply
identity normalization to the registry name" — kebab-case and flatten a
scope separator, exactly the normalization `PackageName::new` applies. -/
def formatRegistryName (s : String) : String :=
  strReplace (kebabCase s) "/" "-"

/-! ## Identity model: `package_name.rs` -/

/-- `PackageName`: every naming scheme of one package. -/
structure PackageName where
  path_name : String
  registry_name : String
  scope : Option String
  scoped_name : Option String
deriving DecidableEq, Repr

/-- `PackageName::new` (`package_name.rs:23-55`).  The `file_name()`
extraction from the filesystem path happens upstream; `pathName` is the
extracted component, `lockName` is `lock.name`. -/
def packageNameNew (pathName : String) (lockName : String) :
    Except String PackageName :=
  let name := kebabCase lockName
  let registryName := strReplace name "/" "-"
  if containsSub name "/" then
    match strSplitOn name "/" with
    | [] => .error "Expected scope"
    | [_] => .error "Expected scoped name"
    | scope :: scopedName :: _ =>
      .ok ⟨pathName, registryName, some scope, some scopedName⟩
  else
    .ok ⟨pathName, registryName, none, none⟩

/-! ## Versions: `package_lock.rs` -/

/-- One numeric component of a semantic version (the `semver` crate
rejects leading zeros). -/
def numericComponent (s : String) : Bool :=
  s ≠ "" && s.data.all Char.isDigit && (s = "0" || ¬ strStartsWith s "0")

/-- Model of `semver::Version::from_str(_).is_ok()` on the core
`major.minor.patch` grammar (pre-release / build metadata are not
modelled; version strings in the theorems stay in the core grammar). -/
def isSemVerString (s : String) : Bool :=
  match strSplitOn s "." with
  | [a, b, c] => numericComponent a && numericComponent b && numericComponent c
  | _ => false

/-- `PackageVersion`: a semantic version or an opaque commit hash. -/
inductive PackageVersion where
  | SemVer (v : String)
  | Commit (h : String)
deriving DecidableEq, Repr

/-- `PackageVersion::new`. -/
def PackageVersion.new (raw : String) : PackageVersion :=
  if isSemVerString raw then .SemVer raw else .Commit raw

/-- `PackageVersion::to_string`. -/
def PackageVersion.toStr : PackageVersion → String
  | .SemVer v => v
  | .Commit h => h

/-! ## Rewrite resolver: `package_rewrite.rs` -/

structure OriginalPackage where
  name : String
  version : String
  description : String
deriving DecidableEq, Repr

structure PackageRewrite where
  new_source : String
  new_version : String
  originals : List OriginalPackage
deriving DecidableEq, Repr

/-- The configured rewrite table (`PACKAGE_REWRITES`), an external
configuration input: loaded from a resources JSON at process start. -/
abbrev RewriteRules := List (String × PackageRewrite)

/-- `resolve_package` (`package_rewrite.rs:53-73`): linear scan of the
rule table; a rule matches when one of its originals equals the input
pair exactly. -/
def resolvePackage (rules : RewriteRules) (name version : String) :
    Bool × String × String :=
  match rules with
  | [] => (false, name, version)
  | (_, rewrite) :: rest =>
    match rewrite.originals.find?
        (fun i => i.name == name && i.version == version) with
    | some _ => (true, rewrite.new_source, rewrite.new_version)
    | none => resolvePackage rest name version

/-! ## Lock parsing: `package_lock.rs` -/

/-- `LockDependency`: one parsed dependency line. -/
structure LockDependency where
  registry_name : String
  path_name : String
  version : PackageVersion
  is_rewritten : Bool
deriving DecidableEq, Repr

/-- `PackageLock`: the raw Rotriever lock record. -/
structure PackageLock where
  name : String
  version : String
  commit : String
  source : String
  dependencies : Option (List String)
deriving DecidableEq, Repr

/-- Tail of one dependency line once the path name and the effective
registry-name token are fixed: version token, normalization, rewrite. -/
def parseLockTail (rules : RewriteRules) (pathName registryTok : String)
    (rest : List String) : Except String LockDependency :=
  match rest with
  | [] => .error "Expected version"
  | rawVersion :: _ =>
    let version := PackageVersion.new rawVersion
    let registryName := formatRegistryName registryTok
    let resolved := resolvePackage rules registryName version.toStr
    let version2 := PackageVersion.new resolved.2.2
    .ok { registry_name := resolved.2.1, path_name := pathName,
          version := version2, is_rewritten := resolved.1 }

/-- One dependency line of `parse_lock_dependencies`
(`package_lock.rs:84-115`): whitespace-split tokens, a `<patched>`
marker in registry position is skipped. -/
def parseLockDependencyString (rules : RewriteRules) (s : String) :
    Except String LockDependency :=
  match strSplitOn s " " with
  | [] => .error "Expected path name"
  | pathName :: rest =>
    match rest with
    | [] => .error "Expected registry name"
    | r1 :: rest2 =>
      if r1 = "<patched>" then
        match rest2 with
        | [] => .error "Expected registry name after <patched>"
        | r2 :: rest3 => parseLockTail rules pathName r2 rest3
      else
        parseLockTail rules pathName r1 rest2

/-- The dependency loop; the first malformed line aborts the parse. -/
def parseDepStrings (rules : RewriteRules) :
    List String → Except String (List LockDependency)
  | [] => .ok []
  | s :: rest =>
    match parseLockDependencyString rules s with
    | .error e => .error e
    | .ok d =>
      match parseDepStrings rules rest with
      | .error e => .error e
      | .ok ds => .ok (d :: ds)

/-- `PackageLock::parse_lock_dependencies` (`package_lock.rs:80-122`):
a lock without a `dependencies` field is itself an error. -/
def parseLockDependencies (rules : RewriteRules) (lock : PackageLock) :
    Except String (List LockDependency) :=
  match lock.dependencies with
  | some ds => parseDepStrings rules ds
  | none => .error "Lock has no dependencies defined"

/-! ## License classifier: `license_extractor.rs`

The similarity scorer (`askalono::TextData::optimize_bounds`) and the
reference corpus (`resources/datasets/license_headers.json`,
`LICENSE_TEXTS`) are external inputs of the core; they are passed as a
score function over header/reference text and as an association list
(the iteration order of the `HashMap` is one chosen order of it). -/

/-- `trim_comment_padding` (`license_extractor.rs:195-204`): the five
`replace` calls in source order, then `trim`. -/
def trimCommentPadding (comment : String) : String :=
  strTrim (strReplace (strReplace (strReplace (strReplace (strReplace
    comment "*" "") "/" "") "\\" "") "--[[" "") "--" "")

/-- The line loop of `extract_license_header`
(`license_extractor.rs:147-193`); `acc` collects header lines in
reverse. -/
def extractHeaderGo : List String → Bool → List String → List String
  | [], _, acc => acc.reverse
  | l :: rest, foundStart, acc =>
    let line := trimCommentPadding l
    let isCode := strStartsWith line "local" || strStartsWith line "type"
    if ¬ foundStart then
      if isCode then acc.reverse
      else
        let isUpstream := containsSub (strToLower line) "upstream"
        if ¬ isUpstream && ¬ (line = "") then
          extractHeaderGo rest true (line :: acc)
        else
          extractHeaderGo rest false acc
    else
      if ¬ (containsSub line "]]" || isCode) then
        extractHeaderGo rest true (line :: acc)
      else acc.reverse

/-- `extract_license_header`. -/
def extractLicenseHeader (source : String) : String :=
  strTrim (strIntercalate "\n" (extractHeaderGo (rustLines source) false []))

/-- Per-script license verdict. -/
inductive ScriptLicense where
  | Licensed (name : String)
  | Unlicensed
deriving DecidableEq, Repr

/-- The license reference corpus, license name to reference texts, in
one iteration order of the backing `HashMap`. -/
abbrev LicenseCorpus := List (String × List String)

/-- The external similarity scorer: header text, reference text, score.
`f32` scores are modelled as rationals. -/
abbrev ScoreFn := String → String → ℚ

/-- `LICENSE_SCORE_THRESHOLD` (`license_extractor.rs:12`). -/
def licenseScoreThreshold : ℚ := mkRat 95 100

/-- Inner loop of `compute_header_license` over one license's reference
texts; the accumulator is `(top_license, highest_score)`. -/
def scanTexts (scoreOf : ScoreFn) (header name : String) :
    List String → ScriptLicense × ℚ → ScriptLicense × ℚ
  | [], acc => acc
  | t :: ts, acc =>
    let score := scoreOf header t
    if acc.2 < score then
      scanTexts scoreOf header name ts (.Licensed name, score)
    else
      scanTexts scoreOf header name ts acc

/-- Outer loop of `compute_header_license` over the corpus. -/
def scanCorpus (scoreOf : ScoreFn) (header : String) :
    LicenseCorpus → ScriptLicense × ℚ → ScriptLicense × ℚ
  | [], acc => acc
  | (name, texts) :: rest, acc =>
    scanCorpus scoreOf header rest (scanTexts scoreOf header name texts acc)

/-- `compute_header_license` (`license_extractor.rs:126-144`):
`highest_score` starts at the threshold and a candidate must score
strictly above the running best to be recorded. -/
def computeHeaderLicense (scoreOf : ScoreFn) (corpus : LicenseCorpus)
    (header : String) : ScriptLicense :=
  (scanCorpus scoreOf header corpus (.Unlicensed, licenseScoreThreshold)).1

/-- The per-file classification of `compute_license_information`
(`license_extractor.rs:97-105`): empty extracted header means
`Unlicensed`, otherwise the scored verdict. -/
def classifyScriptSource (scoreOf : ScoreFn) (corpus : LicenseCorpus)
    (src : String) : ScriptLicense :=
  let h := extractLicenseHeader src
  if h = "" then .Unlicensed else computeHeaderLicense scoreOf corpus h

/-- `Path::extension` of the final path component (enough of the Rust
semantics for the extension filter). -/
def extensionOf (path : String) : Option String :=
  let fileName := (strSplitOn path "/").getLastD ""
  let stem := if strStartsWith fileName "." then strDrop fileName 1 else fileName
  match strSplitOn stem "." with
  | [] => none
  | [_] => none
  | parts => some (parts.getLastD "")

/-- The extension filter of `compute_license_information`
(`license_extractor.rs:86-90`): only `lua`/`luau` files are classified,
and a file with *no* extension falls through the check and is
classified. -/
def keepFile (path : String) : Bool :=
  match extensionOf path with
  | some ext => ext = "lua" || ext = "luau"
  | none => true

/-- Insertion into the verdict map (`license_extractor.rs:115-119`):
append to an existing verdict's path list, else add a new entry.  The
`BTreeMap` is modelled as an association list with unique keys; entry
order differs from the map's key order but lookups agree. -/
def insertLicense : List (ScriptLicense × List String) → ScriptLicense →
    String → List (ScriptLicense × List String)
  | [], lic, path => [(lic, [path])]
  | (k, ps) :: rest, lic, path =>
    if k = lic then (k, ps ++ [path]) :: rest
    else (k, ps) :: insertLicense rest lic path

/-- One loop iteration of `compute_license_information`: classify the
file and record it, or skip it by extension. -/
def licenseStep (scoreOf : ScoreFn) (corpus : LicenseCorpus)
    (m : List (ScriptLicense × List String)) (pf : String × String) :
    List (ScriptLicense × List String) :=
  if keepFile pf.1 then
    insertLicense m (classifyScriptSource scoreOf corpus pf.2) pf.1
  else m

/-- `compute_license_information` over the walked file list (relative
path, decoded source text); the directory walk itself is upstream
I/O. -/
def computeLicenseInformation (scoreOf : ScoreFn) (corpus : LicenseCorpus)
    (files : List (String × String)) : List (ScriptLicense × List String) :=
  files.foldl (licenseStep scoreOf corpus) []

/-- `BTreeMap::get` on the verdict map. -/
def lookupLicenses (m : List (ScriptLicense × List String))
    (lic : ScriptLicense) : Option (List String) :=
  (m.find? (fun kv => kv.1 == lic)).map (fun kv => kv.2)

/-! ## Registry and recursive license check: `package/mod.rs`,
`package_registry.rs` -/

/-- `Package` (`package/mod.rs:36-45`). -/
structure Package where
  package_path : String
  name : PackageName
  lock : PackageLock
  licenses : List (ScriptLicense × List String)
deriving DecidableEq, Repr

/-- `PackageRegistry` (`package_registry.rs:20-25`).  Only the package
map is modelled; `package_count` and the petgraph mirror of the edges
are not consulted by any verified operation. -/
structure PackageRegistry where
  packages : List (Nat × Package)
deriving Repr

def findByPathName (reg : PackageRegistry) (pathName : String) :
    Option (Nat × Package) :=
  reg.packages.find? (fun kv => kv.2.name.path_name == pathName)

def findByRegistryName (reg : PackageRegistry) (registryName : String) :
    Option (Nat × Package) :=
  reg.packages.find? (fun kv => kv.2.name.registry_name == registryName)

/-- `find_by_registry_name_and_version` (exact version string, no
semver-range matching). -/
def findByRegistryNameAndVersion (reg : PackageRegistry)
    (registryName version : String) : Option (Nat × Package) :=
  reg.packages.find?
    (fun kv => kv.2.name.registry_name == registryName &&
      kv.2.lock.version == version)

def findByCommitHash (reg : PackageRegistry) (commitHash : String) :
    Option (Nat × Package) :=
  reg.packages.find? (fun kv => strStartsWith kv.2.lock.commit commitHash)

/-- `resolve_lock_dependency_to_package` (`package_registry.rs:72-87`):
exact (registry name, version) or commit-prefix first, then the
name-only fallback. -/
def resolveLockDependencyToPackage (reg : PackageRegistry)
    (d : LockDependency) : Option (Nat × Package) :=
  let firstGuess :=
    match d.version with
    | .SemVer v => findByRegistryNameAndVersion reg d.registry_name v
    | .Commit v => findByCommitHash reg v
  match firstGuess with
  | some g => some g
  | none => findByRegistryName reg d.registry_name

/-- `UnlicensedPackageReason` (`license_extractor.rs:62-68`). -/
inductive UnlicensedPackageReason where
  | UnlicensedScripts (scripts : List String)
  | UnlicensedDependencies
      (deps : List (String × String × UnlicensedPackageReason))
deriving Repr

/-- `PackageLicense` (`license_extractor.rs:53-58`). -/
inductive PackageLicense where
  | Licensed (licenses : List String)
  | Unlicensed (reason : UnlicensedPackageReason)
deriving Repr

/-- `Package::is_package_rewritten` (`package/mod.rs:163-168`). -/
def isPackageRewritten (rules : RewriteRules) (p : Package) : Bool :=
  (resolvePackage rules p.name.registry_name p.lock.version).1

/-- The license-name collection at the end of `is_package_licensed`
(`package/mod.rs:150-156`). -/
def licensedNames : List (ScriptLicense × List String) → List String
  | [] => []
  | (k, _) :: rest =>
    match k with
    | .Licensed l => l :: licensedNames rest
    | .Unlicensed => licensedNames rest

/-- The dependency loop of `Package::is_package_licensed`
(`package/mod.rs:106-139`), parameterized by the recursive check:
rewritten dependencies are skipped, an unresolvable dependency is an
error, and every unlicensed dependency is collected in order. -/
def licCheckDeps
    (recurse : Package → Option (Except String PackageLicense))
    (reg : PackageRegistry) :
    List LockDependency →
    Option (Except String (List (String × String × UnlicensedPackageReason)))
  | [] => some (.ok [])
  | d :: rest =>
    if d.is_rewritten then licCheckDeps recurse reg rest
    else
      match resolveLockDependencyToPackage reg d with
      | none => some (.error "Lock dependency does not exist in registry")
      | some rp =>
        match recurse rp.2 with
        | none => none
        | some (.error e) => some (.error e)
        | some (.ok lic) =>
          match licCheckDeps recurse reg rest with
          | none => none
          | some (.error e) => some (.error e)
          | some (.ok entries) =>
            match lic with
            | .Unlicensed reason =>
              some (.ok ((d.registry_name, d.version.toStr, reason) :: entries))
            | .Licensed _ => some (.ok entries)

/-- `Package::is_package_licensed` (`package/mod.rs:93-159`),
fuel-indexed (the source recursion carries no cycle guard, so it need
not terminate; `none` = fuel exhausted).  A package with unlicensed
scripts of its own is reported before any dependency is examined; a
failed dependency parse is treated as "no dependencies" (the source's
`if let Ok(..)`). -/
def isPackageLicensedFuel (rules : RewriteRules) (reg : PackageRegistry) :
    Nat → Package → Option (Except String PackageLicense)
  | 0, _ => none
  | fuel+1, p =>
    match lookupLicenses p.licenses .Unlicensed with
    | some unlicensedScripts =>
      some (.ok (.Unlicensed (.UnlicensedScripts unlicensedScripts)))
    | none =>
      let deps :=
        match parseLockDependencies rules p.lock with
        | .ok ds => ds
        | .error _ => []
      match licCheckDeps (isPackageLicensedFuel rules reg fuel) reg deps with
      | none => none
      | some (.error e) => some (.error e)
      | some (.ok []) => some (.ok (.Licensed (licensedNames p.licenses)))
      | some (.ok (e :: es)) =>
        some (.ok (.Unlicensed (.UnlicensedDependencies (e :: es))))

/-! ## Tree rendering: `stream.rs`, `package_tree.rs` -/

/-- `Indent` (`stream.rs:6-9`). -/
inductive Indent where
  | Some
  | None
deriving DecidableEq, Repr

/-- `Stream` (`stream.rs:12-15`). -/
structure Stream where
  stream : String
  indents : List Indent
deriving DecidableEq, Repr

/-- The indent loop of `Stream::write_line` (`stream.rs:31-47`): every
indent but the last renders as a bar or blank, the last renders the
tee/ell connector. -/
def indentSymbols : List Indent → Bool → String
  | [], _ => ""
  | [i], finalLine =>
    (match i with
     | .None => "   "
     | .Some => if finalLine then "└──" else "├──")
  | i :: rest, finalLine =>
    (match i with | .None => "   " | .Some => "│  ") ++
      indentSymbols rest finalLine

/-- One text piece of `Stream::write_line`. -/
def writeLineOne (st : Stream) (text : String) (finalLine : Bool) : Stream :=
  { st with stream := st.stream ++ (if st.stream = "" then "" else "\n") ++
      indentSymbols st.indents finalLine ++ text }

/-- `Stream::write_line` (`stream.rs:25-51`). -/
def writeLine (st : Stream) (s : String) (finalLine : Bool) : Stream :=
  (strSplitOn s "\n").foldl (fun acc t => writeLineOne acc t finalLine) st

/-- The one-ahead peek of `compute_package_tree_internal`
(`package_tree.rs:85-98`): the current dependency is the last visible
one when there is no next dependency, or the next dependency resolves
to an already-visited reference. -/
def peekIsLast (reg : PackageRegistry) (prev2 : List Nat) :
    List LockDependency → Bool
  | [] => true
  | next :: _ =>
    match findByRegistryNameAndVersion reg next.registry_name
        next.version.toStr with
    | some nrp => prev2.contains nrp.1
    | none => false

/-- The dependency loop of `compute_package_tree_internal`
(`package_tree.rs:54-111`), parameterized by the recursive render.
State is the stream plus the `previous_packages` reference list.  A
non-rewritten dependency is written as an external leaf; a dependency
already in `previous_packages` *breaks the loop*; otherwise its
reference is pushed and the one-ahead peek decides the last-child
flag. -/
def processTreeDeps (rules : RewriteRules) (reg : PackageRegistry)
    (recurse : Stream → List Nat → Package → Bool →
      Option (Except String (Stream × List Nat))) :
    Stream → List Nat → List LockDependency →
    Option (Except String (Stream × List Nat))
  | st, prev, [] => some (.ok (st, prev))
  | st, prev, d :: rest =>
    if ¬ d.is_rewritten then
      processTreeDeps rules reg recurse
        (writeLine st
          (d.registry_name ++ " (v" ++ d.version.toStr ++ ") (external)")
          false)
        prev rest
    else
      match findByRegistryNameAndVersion reg d.registry_name d.version.toStr with
      | none => some (.error "Dependency does not exist in registry")
      | some rp =>
        if prev.contains rp.1 then some (.ok (st, prev))
        else
          let prev2 := prev ++ [rp.1]
          match recurse st prev2 rp.2 (peekIsLast reg prev2 rest) with
          | none => none
          | some (.error e) => some (.error e)
          | some (.ok (st2, prev3)) =>
            processTreeDeps rules reg recurse st2 prev3 rest

/-- `compute_package_tree_internal` (`package_tree.rs:23-117`),
fuel-indexed on the package recursion depth. -/
def computeTreeFuel (rules : RewriteRules) (reg : PackageRegistry) :
    Nat → Stream → List Nat → Package → Bool →
    Option (Except String (Stream × List Nat))
  | 0, _, _, _, _ => none
  | fuel+1, st, prev, p, finalPackage =>
    let currentIndent := st.indents.length
    let line := "core-packages/" ++ p.name.registry_name ++ " (v" ++
      p.lock.version ++ ")" ++
      (if isPackageRewritten rules p then " (rewritten)" else "")
    let st2 := writeLine st line finalPackage
    match parseLockDependencies rules p.lock with
    | .error _ => some (.ok (st2, prev))
    | .ok deps =>
      let ind := if finalPackage then Indent.None else Indent.Some
      let st3 := { st2 with
        indents := (st2.indents.set (currentIndent - 1) ind) ++ [Indent.Some] }
      match processTreeDeps rules reg (computeTreeFuel rules reg fuel)
          st3 prev deps with
      | none => none
      | some (.error e) => some (.error e)
      | some (.ok (st4, prev4)) =>
        some (.ok ({ st4 with indents := st4.indents.dropLast }, prev4))

/-- `compute_package_tree` (`package_tree.rs:11-21`). -/
def computePackageTree (rules : RewriteRules) (reg : PackageRegistry)
    (fuel : Nat) (p : Package) : Option (Except String String) :=
  match computeTreeFuel rules reg fuel
      { stream := "", indents := [Indent.Some] } [] p false with
  | none => none
  | some (.error e) => some (.error e)
  | some (.ok (st, _)) => some (.ok st.stream)

/-! ## Historical pipeline: `domain.rs`,
`sources/common/package_registry.rs` -/

/-- `License` (`domain.rs:13-17`). -/
inductive License where
  | MIT
  | Apache2
  | NoLicense
deriving DecidableEq, Repr

/-- `PackageMeta` (`domain.rs:30-51`); `PackageName` newtype and
`PathBuf`s carried as strings. -/
structure PackageMeta where
  thunk_name : String
  true_name : String
  wally_complaint_name : String
  version : String
  dependencies : List String
  dependency_thunk_names : List (String × String)
  lines_of_code : Nat
  licenses : List License
  unlicensed_files : List String
  package_path : String
deriving DecidableEq, Repr

/-- `DEPENDENCY_VERSION_ALIASES` (`constants.rs:25-28`). -/
def dependencyVersionAliases : List (String × String) :=
  [("Promise", "evaera/promise@4.0.0"), ("Cryo", "freddylist/llama@1.1.1")]

/-- `PackageMeta::contains_unlicensed_code` (`domain.rs:53-62`): the
check is bypassed entirely for alias-table names. -/
def containsUnlicensedCode (meta : PackageMeta) : Bool :=
  if (dependencyVersionAliases.find?
      (fun kv => kv.1 == meta.thunk_name)).isSome then false
  else meta.licenses.contains License.NoLicense

/-- The historical `PackageRegistry`
(`sources/common/package_registry.rs:8-11`). -/
structure MetaRegistry where
  packages : List (String × PackageMeta)
deriving Repr

/-- `PackageRegistry::get_package`. -/
def getPackage (reg : MetaRegistry) (name : String) : Option PackageMeta :=
  (reg.packages.find? (fun kv => kv.1 == name)).map (fun kv => kv.2)

/-- The dependency loop of the historical
`PackageRegistry::is_package_licensed`
(`sources/common/package_registry.rs:71-81`): each dependency's
unlicensed files are appended, and the loop *returns early* at the
first unlicensed dependency. -/
def regLicCheckDeps
    (recurse : String → Option (Except String (Bool × List String))) :
    List String → List String → Option (Except String (Bool × List String))
  | [], acc => some (.ok (true, acc))
  | d :: rest, acc =>
    match recurse d with
    | none => none
    | some (.error e) => some (.error e)
    | some (.ok r) =>
      let acc2 := acc ++ r.2
      if r.1 then regLicCheckDeps recurse rest acc2
      else some (.ok (false, acc2))

/-- The historical `PackageRegistry::is_package_licensed`
(`sources/common/package_registry.rs:56-84`), fuel-indexed (this
recursion carries no cycle guard either). -/
def regIsPackageLicensedFuel (reg : MetaRegistry) :
    Nat → String → Option (Except String (Bool × List String))
  | 0, _ => none
  | fuel+1, name =>
    match getPackage reg name with
    | none => some (.error "Package does not exist in registry")
    | some package =>
      if containsUnlicensedCode package then
        some (.ok (false, package.unlicensed_files))
      else
        regLicCheckDeps (regIsPackageLicensedFuel reg fuel)
          package.dependencies package.unlicensed_files

/-! ## Helper lemmas -/

/-- `resolve_package` echoes its input when no rule's original matches. -/
theorem resolvePackage_no_match (rules : RewriteRules) (name version : String)
    (h : ∀ p ∈ rules, ∀ o ∈ p.2.originals,
      ¬ (o.name = name ∧ o.version = version)) :
    resolvePackage rules name version = (false, name, version) := by
  induction rules with
  | nil => rfl
  | cons p rest ih =>
    have hfind : p.2.originals.find?
        (fun i => i.name == name && i.version == version) = none := by
      apply List.find?_eq_none.mpr
      intro o ho
      have := h p (List.mem_cons_self p rest) o ho
      simp only [Bool.and_eq_true, beq_iff_eq]
      tauto
    have hrest : ∀ q ∈ rest, ∀ o ∈ q.2.originals,
        ¬ (o.name = name ∧ o.version = version) := by
      intro q hq o ho
      exact h q (List.mem_cons_of_mem p hq) o ho
    obtain ⟨k, rw⟩ := p
    simp only [resolvePackage, hfind]
    exact ih hrest

/-- Every `resolve_package` result is either the echoed input or the
replacement pair of a rule whose original matched. -/
theorem resolvePackage_cases (rules : RewriteRules) (name version : String) :
    resolvePackage rules name version = (false, name, version) ∨
    ∃ p ∈ rules, resolvePackage rules name version =
      (true, p.2.new_source, p.2.new_version) := by
  induction rules with
  | nil => exact Or.inl rfl
  | cons p rest ih =>
    obtain ⟨k, rw⟩ := p
    rcases hfind : rw.originals.find?
        (fun i => i.name == name && i.version == version) with _ | o
    · rcases ih with h | ⟨q, hq, hres⟩
      · left
        simp only [resolvePackage, hfind]
        exact h
      · right
        refine ⟨q, List.mem_cons_of_mem _ hq, ?_⟩
        simp only [resolvePackage, hfind]
        exact hres
    · right
      refine ⟨(k, rw), List.mem_cons_self _ rest, ?_⟩
      simp only [resolvePackage, hfind]

/-- `C8`: Rewrite resolution is idempotent.  For an originals-only rule
table (no rule's originals contain any rule's replacement pair),
resolving the output of a first `resolve_package` call rewrites nothing
and echoes the pair back. -/
theorem C8_rewrite_idempotent (rules : RewriteRules) (name version : String)
    (horig : ∀ p ∈ rules, ∀ q ∈ rules, ∀ o ∈ q.2.originals,
      ¬ (o.name = p.2.new_source ∧ o.version = p.2.new_version)) :
    resolvePackage rules (resolvePackage rules name version).2.1
        (resolvePackage rules name version).2.2 =
      (false, (resolvePackage rules name version).2.1,
        (resolvePackage rules name version).2.2) := by
  rcases resolvePackage_cases rules name version with h | ⟨p, hp, h⟩
  · rw [h]
    exact h
  · rw [h]
    exact resolvePackage_no_match rules p.2.new_source p.2.new_version
      (fun q hq o ho => horig p hp q hq o ho)

/-- `C8` witness: the crate's own mocked rewrite table (the `cfg(test)`
table in `package_rewrite.rs:14-29`). -/
def fxDemoRules : RewriteRules :=
  [("Promise", ⟨"evaera/promise", "4.0.0",
    [⟨"promise", "8c520dea", "internal promise upgrade flag package"⟩]⟩)]

/-- `C8` witness: resolving the already-resolved pair
`(evaera/promise, 4.0.0)` (the output of resolving
`(promise, 8c520dea)`) rewrites nothing. -/
theorem C8_rewrite_idempotent_witness :
    resolvePackage fxDemoRules "evaera/promise" "4.0.0" =
      (false, "evaera/promise", "4.0.0") := by
  have h := C8_rewrite_idempotent fxDemoRules "promise" "8c520dea" (by decide)
  exact h

/-- `C4` counterexample: a raw lock name with more than one `/` does
*not* produce a hard `InvalidIdentity`-style error.  `PackageName::new`
pulls only the first two `/`-separated segments with `segments.next()`
and never inspects the rest, so `"a/b/c"` yields a successful identity
(scope `a`, scoped name `b`, third segment silently dropped from the
scope fields) instead of the error the claim requires. -/
theorem C4_multislash_counterexample :
    packageNameNew "pathname" "a/b/c" =
      Except.ok ⟨"pathname", "a-b-c", some "a", some "b"⟩ := by
  rfl

/-- `C4` (amended): identity construction kebab-cases the raw name,
flattens every `/` to `-` in the registry name, and takes the first two
`/`-separated segments as scope and scoped name; a name with more than
one `/` is *not* an error — the extra segments are ignored. -/
theorem C4_identity_normalization (pathName lockName : String)
    (hslash : containsSub (kebabCase lockName) "/" = true) :
    packageNameNew pathName lockName =
      .ok ⟨pathName, strReplace (kebabCase lockName) "/" "-",
        (strSplitOn (kebabCase lockName) "/").head?,
        (strSplitOn (kebabCase lockName) "/").get? 1⟩ := by
  have hlen : 2 ≤ (strSplitOn (kebabCase lockName) "/").length := by
    have h := hslash
    unfold containsSub at h
    exact of_decide_eq_true h
  rcases hsp : strSplitOn (kebabCase lockName) "/" with _ | ⟨a, rest⟩
  · rw [hsp] at hlen; simp at hlen
  · rcases rest with _ | ⟨b, t⟩
    · rw [hsp] at hlen; simp at hlen
    · simp only [packageNameNew, hslash, hsp, if_true]
      rfl

/-- `C4` witness: the amended normalization at the concrete multi-slash
name `a/b/c`. -/
theorem C4_identity_normalization_witness :
    packageNameNew "p" "a/b/c" =
      Except.ok ⟨"p", "a-b-c", some "a", some "b"⟩ := by
  have h := C4_identity_normalization "p" "a/b/c" (by decide)
  exact h

/-! ### C9: lock-parse error behaviour -/

/-- A dependency line missing a required token: fewer than three
whitespace-split tokens, or fewer than four when the second token is
the `<patched>` marker. -/
def missingTokens (s : String) : Bool :=
  match strSplitOn s " " with
  | _ :: r1 :: rest =>
    if r1 = "<patched>" then
      match rest with
      | _ :: _ :: _ => false
      | _ => true
    else
      match rest with
      | _ :: _ => false
      | [] => true
  | _ => true

def exceptIsOk : Except ε α → Bool
  | .ok _ => true
  | .error _ => false

/-- One dependency line parses successfully exactly when no required
token is missing. -/
theorem parseLine_ok_iff (rules : RewriteRules) (s : String) :
    exceptIsOk (parseLockDependencyString rules s) = !missingTokens s := by
  unfold parseLockDependencyString missingTokens
  rcases h : strSplitOn s " " with _ | ⟨p, rest1⟩
  · simp [exceptIsOk]
  · rcases rest1 with _ | ⟨r1, rest⟩
    · simp [exceptIsOk]
    · by_cases hp : r1 = "<patched>"
      · subst hp
        rcases rest with _ | ⟨r2, rest2⟩
        · simp [exceptIsOk]
        · rcases rest2 with _ | ⟨v, rest3⟩
          · simp [exceptIsOk, parseLockTail]
          · simp [exceptIsOk, parseLockTail]
      · rcases rest with _ | ⟨v, rest2⟩
        · simp [exceptIsOk, hp, parseLockTail]
        · simp [exceptIsOk, hp, parseLockTail]

/-- The dependency-list loop succeeds exactly when every line has all
required tokens. -/
theorem parseDepStrings_ok_iff (rules : RewriteRules) (ds : List String) :
    exceptIsOk (parseDepStrings rules ds) =
      ds.all (fun s => !missingTokens s) := by
  induction ds with
  | nil => rfl
  | cons s rest ih =>
    have hline := parseLine_ok_iff rules s
    rcases hs : parseLockDependencyString rules s with e | d
    · rw [hs] at hline
      simp [parseDepStrings, hs, exceptIsOk, List.all_cons, ← hline]
    · rw [hs] at hline
      rcases hr : parseDepStrings rules rest with e' | ds'
      · rw [hr] at ih
        simp [parseDepStrings, hs, hr, exceptIsOk, List.all_cons, ← hline, ← ih]
      · rw [hr] at ih
        simp [parseDepStrings, hs, hr, exceptIsOk, List.all_cons, ← hline, ← ih]

/-- `C9` counterexample: a lock whose `dependencies` field is absent
("no dependencies present") *is* itself a hard error
(`bail!("Lock has no dependencies defined")`), although no dependency
line is missing any token — refuting "a lock with no dependencies
present is not itself a parse error". -/
theorem C9_no_dependencies_counterexample :
    parseLockDependencies [] ⟨"Emittery", "3.2.1", "792ffec6", "src", none⟩ =
      .error "Lock has no dependencies defined" := by
  rfl

/-- `C9` (amended): parsing fails exactly when a dependency line is
missing a required token (path name, registry name after an optional
`<patched>` marker, or version) — except that a lock with *no
dependencies field at all* is also a hard error
(`"Lock has no dependencies defined"`); an empty dependency list is
not an error and yields the empty dependency set. -/
theorem C9_missing_token_amended :
    (∀ (rules : RewriteRules) (lock : PackageLock),
      lock.dependencies = none →
      parseLockDependencies rules lock =
        .error "Lock has no dependencies defined") ∧
    (∀ (rules : RewriteRules) (lock : PackageLock) (ds : List String),
      lock.dependencies = some ds →
      exceptIsOk (parseLockDependencies rules lock) =
        ds.all (fun s => !missingTokens s)) ∧
    (∀ (rules : RewriteRules) (n v c src : String),
      parseLockDependencies rules ⟨n, v, c, src, some []⟩ = .ok []) := by
  refine ⟨?_, ?_, ?_⟩
  · intro rules lock h
    unfold parseLockDependencies
    rw [h]
  · intro rules lock ds h
    unfold parseLockDependencies
    rw [h]
    exact parseDepStrings_ok_iff rules ds
  · intro rules n v c src
    rfl

/-! ### C5: classifier thresholding -/

/-- When every score is at most the running best, the text scan leaves
the accumulator unchanged. -/
theorem scanTexts_no_update (scoreOf : ScoreFn) (header name : String) :
    ∀ (ts : List String) (top : ScriptLicense) (hi : ℚ),
      (∀ t ∈ ts, scoreOf header t ≤ hi) →
      scanTexts scoreOf header name ts (top, hi) = (top, hi) := by
  intro ts
  induction ts with
  | nil => intro top hi _; rfl
  | cons t rest ih =>
    intro top hi h
    have hle : ¬ ((top, hi).2 < scoreOf header t) :=
      not_lt.mpr (h t (List.mem_cons_self t rest))
    simp only [scanTexts, if_neg hle]
    exact ih top hi (fun u hu => h u (List.mem_cons_of_mem t hu))

/-- When every corpus score is at most the running best, the corpus
scan leaves the accumulator unchanged. -/
theorem scanCorpus_no_update (scoreOf : ScoreFn) (header : String) :
    ∀ (corpus : LicenseCorpus) (top : ScriptLicense) (hi : ℚ),
      (∀ p ∈ corpus, ∀ t ∈ p.2, scoreOf header t ≤ hi) →
      scanCorpus scoreOf header corpus (top, hi) = (top, hi) := by
  intro corpus
  induction corpus with
  | nil => intro top hi _; rfl
  | cons p rest ih =>
    intro top hi h
    obtain ⟨name, texts⟩ := p
    simp only [scanCorpus]
    rw [scanTexts_no_update scoreOf header name texts top hi
      (fun t ht => h (name, texts) (List.mem_cons_self _ rest) t ht)]
    exact ih top hi (fun q hq t ht => h q (List.mem_cons_of_mem _ hq) t ht)

/-- `C5` counterexample: a best similarity score exactly *equal to* the
0.95 threshold is not credited — `compute_header_license` requires
`score > highest_score` with `highest_score` initialized to the
threshold, so a non-empty header whose best corpus score meets the
threshold is still classified `Unlicensed`, refuting "a score meeting
the threshold is credited". -/
theorem C5_threshold_equality_counterexample :
    computeHeaderLicense (fun _ _ => mkRat 19 20) [("mit", ["ref"])]
        "Copyright (c) Contributors" = .Unlicensed ∧
    mkRat 19 20 = licenseScoreThreshold := by
  exact ⟨rfl, rfl⟩

/-- `C5` (amended): a non-empty extracted header whose every corpus
score is at or *below* the 0.95 threshold — strictly below or exactly
equal — is classified `Unlicensed` (only a score strictly above the
threshold is credited), and a source whose extracted header is empty
is classified `Unlicensed`. -/
theorem C5_threshold_amended :
    (∀ (scoreOf : ScoreFn) (corpus : LicenseCorpus) (header : String),
      (∀ p ∈ corpus, ∀ t ∈ p.2, scoreOf header t ≤ licenseScoreThreshold) →
      computeHeaderLicense scoreOf corpus header = .Unlicensed) ∧
    (∀ (scoreOf : ScoreFn) (corpus : LicenseCorpus) (src : String),
      extractLicenseHeader src = "" →
      classifyScriptSource scoreOf corpus src = .Unlicensed) := by
  constructor
  · intro scoreOf corpus header h
    unfold computeHeaderLicense
    rw [scanCorpus_no_update scoreOf header corpus .Unlicensed
      licenseScoreThreshold h]
  · intro scoreOf corpus src h
    unfold classifyScriptSource
    rw [h]
    rfl

/-! ### C6: well-formed lock-line extraction -/

/-- Rendering a freshly classified version string gives the raw string
back. -/
theorem toStr_new (v : String) : (PackageVersion.new v).toStr = v := by
  by_cases h : isSemVerString v = true
  · simp [PackageVersion.new, h, PackageVersion.toStr]
  · simp [PackageVersion.new, h, PackageVersion.toStr]

/-- `C6`: on a well-formed dependency line
`path_name [<patched>] registry_name version [source_locator...]`,
parsing extracts exactly the token triple — the path-name token, the
registry-name token (the token *after* a leading `<patched>` marker,
which is itself skipped) and the version token — whenever the
registry token is fixed under normalization and not rewritten by the
rule table. -/
theorem C6_lock_line_extraction :
    (∀ (rules : RewriteRules) (s pn rn v : String) (rest : List String),
      strSplitOn s " " = pn :: rn :: v :: rest →
      rn ≠ "<patched>" →
      formatRegistryName rn = rn →
      resolvePackage rules rn (PackageVersion.new v).toStr =
        (false, rn, (PackageVersion.new v).toStr) →
      parseLockDependencyString rules s =
        .ok ⟨rn, pn, PackageVersion.new v, false⟩) ∧
    (∀ (rules : RewriteRules) (s pn rn v : String) (rest : List String),
      strSplitOn s " " = pn :: "<patched>" :: rn :: v :: rest →
      formatRegistryName rn = rn →
      resolvePackage rules rn (PackageVersion.new v).toStr =
        (false, rn, (PackageVersion.new v).toStr) →
      parseLockDependencyString rules s =
        .ok ⟨rn, pn, PackageVersion.new v, false⟩) := by
  constructor
  · intro rules s pn rn v rest hs hnp hfix hnm
    rw [toStr_new] at hnm
    simp only [parseLockDependencyString, hs, if_neg hnp, parseLockTail,
      hfix, toStr_new, hnm]
  · intro rules s pn rn v rest hs hfix hnm
    rw [toStr_new] at hnm
    simp only [parseLockDependencyString, hs, parseLockTail,
      hfix, toStr_new, hnm]
    simp

/-- `C6` witness: a concrete well-formed line in both shapes. -/
theorem C6_lock_line_extraction_witness :
    parseLockDependencyString []
        "LuauPolyfill luau-polyfill 1.1.0 url+github" =
      .ok ⟨"luau-polyfill", "LuauPolyfill", .SemVer "1.1.0", false⟩ ∧
    parseLockDependencyString []
        "Promise <patched> promise 1.2.3 git+github" =
      .ok ⟨"promise", "Promise", .SemVer "1.2.3", false⟩ := by
  constructor
  · have h := C6_lock_line_extraction.1 [] "LuauPolyfill luau-polyfill 1.1.0 url+github"
      "LuauPolyfill" "luau-polyfill" "1.1.0" ["url+github"] (by decide)
      (by decide) (by decide) (by decide)
    exact h
  · have h := C6_lock_line_extraction.2 [] "Promise <patched> promise 1.2.3 git+github"
      "Promise" "promise" "1.2.3" ["git+github"] (by decide)
      (by decide) (by decide)
    exact h

/-! ### C2: an unlicensed file blocks the licensed verdict (with the
historical alias bypass) -/

/-- `C2` counterexample fixture: a package named by the
`DEPENDENCY_VERSION_ALIASES` table whose sources contain unlicensed
code. -/
def fxPromiseMeta : PackageMeta :=
  ⟨"Promise", "Promise", "promise", "4.0.0", [], [], 10,
    [License.NoLicense], ["Promise/init.lua"], "Packages/_Index/Promise"⟩

def fxMetaReg : MetaRegistry := ⟨[("Promise", fxPromiseMeta)]⟩

/-- `C2` counterexample: in the historical pipeline the
`contains_unlicensed_code` check is bypassed for alias-table names
(`domain.rs:56-58`), so the package `Promise` — which *does* carry an
`Unlicensed`/`NoLicense` verdict and a non-empty unlicensed-file list —
is reported licensed (`true`) by `is_package_licensed`, refuting
"never reports that package as licensed". -/
theorem C2_alias_bypass_counterexample :
    fxPromiseMeta.licenses.contains License.NoLicense = true ∧
    fxPromiseMeta.unlicensed_files = ["Promise/init.lua"] ∧
    regIsPackageLicensedFuel fxMetaReg 1 "Promise" =
      some (.ok (true, ["Promise/init.lua"])) := by
  exact ⟨rfl, rfl, rfl⟩

/-- `C2` (amended): a package with an `Unlicensed` verdict is never
reported licensed by `Package::is_package_licensed`, whatever its
dependencies' states and at every fuel bound; in the historical
registry check the same holds *except* for packages whose thunk name
the `DEPENDENCY_VERSION_ALIASES` table bypasses. -/
theorem C2_unlicensed_blocks_amended :
    (∀ (rules : RewriteRules) (reg : PackageRegistry) (fuel : Nat)
        (p : Package) (files ls : List String),
      lookupLicenses p.licenses .Unlicensed = some files →
      isPackageLicensedFuel rules reg fuel p ≠
        some (.ok (.Licensed ls))) ∧
    (∀ (reg : MetaRegistry) (fuel : Nat) (name : String)
        (meta : PackageMeta) (r : List String),
      getPackage reg name = some meta →
      (dependencyVersionAliases.find?
        (fun kv => kv.1 == meta.thunk_name)).isSome = false →
      meta.licenses.contains License.NoLicense = true →
      regIsPackageLicensedFuel reg fuel name ≠ some (.ok (true, r))) := by
  constructor
  · intro rules reg fuel p files ls h
    cases fuel with
    | zero => simp [isPackageLicensedFuel]
    | succ n =>
      simp only [isPackageLicensedFuel, h]
      intro heq
      simp at heq
  · intro reg fuel name meta r hget halias hcontains
    cases fuel with
    | zero => simp [regIsPackageLicensedFuel]
    | succ n =>
      have hunl : containsUnlicensedCode meta = true := by
        unfold containsUnlicensedCode
        rw [halias]
        simpa using hcontains
      simp only [regIsPackageLicensedFuel, hget, hunl]
      intro heq
      simp at heq

/-! ### C3: aggregation of blocking files -/

/-- `C3` fixtures: a package `pkg-p` with an unlicensed file of its own
*and* an unlicensed, non-rewritten, resolvable dependency `dep-d`. -/
def fxLockD : PackageLock := ⟨"DepD", "1.0.0", "dddd", "src", some []⟩

def fxPkgD : Package :=
  ⟨"/idx/D", ⟨"D-path", "dep-d", none, none⟩, fxLockD,
    [(.Unlicensed, ["D/f2.lua"])]⟩

def fxLockP : PackageLock :=
  ⟨"PkgP", "1.0.0", "pppp", "src", some ["DepD DepD 1.0.0 src"]⟩

def fxPkgP : Package :=
  ⟨"/idx/P", ⟨"P-path", "pkg-p", none, none⟩, fxLockP,
    [(.Unlicensed, ["P/f1.lua"]), (.Licensed "MIT", ["P/ok.lua"])]⟩

def fxRegPD : PackageRegistry := ⟨[(1, fxPkgP), (2, fxPkgD)]⟩

/-- `C3` counterexample: `pkg-p` has its own unlicensed file `P/f1.lua`
and depends (non-rewritten, resolvable) on `dep-d`, which is blocked by
`D/f2.lua`.  The verdict reports only the package's own file —
dependencies are never examined once own unlicensed scripts exist — so
the returned list is *not* the union of every blocking file found
transitively. -/
theorem C3_not_union_counterexample :
    lookupLicenses fxPkgD.licenses .Unlicensed = some ["D/f2.lua"] ∧
    parseLockDependencies [] fxLockP =
      .ok [⟨"dep-d", "DepD", .SemVer "1.0.0", false⟩] ∧
    isPackageLicensedFuel [] fxRegPD 5 fxPkgP =
      some (.ok (.Unlicensed (.UnlicensedScripts ["P/f1.lua"]))) := by
  exact ⟨rfl, rfl, rfl⟩

/-- Inversion of one step of the dependency loop of
`is_package_licensed`. -/
theorem licCheckDeps_cons_inv
    (recurse : Package → Option (Except String PackageLicense))
    (reg : PackageRegistry) (d : LockDependency) (rest : List LockDependency)
    (entries : List (String × String × UnlicensedPackageReason))
    (h : licCheckDeps recurse reg (d :: rest) = some (.ok entries)) :
    (d.is_rewritten = true ∧
      licCheckDeps recurse reg rest = some (.ok entries)) ∨
    (d.is_rewritten = false ∧ ∃ rp lic entries',
      resolveLockDependencyToPackage reg d = some rp ∧
      recurse rp.2 = some (.ok lic) ∧
      licCheckDeps recurse reg rest = some (.ok entries') ∧
      ((∃ reason, lic = .Unlicensed reason ∧
          entries = (d.registry_name, d.version.toStr, reason) :: entries') ∨
        (∃ ls, lic = .Licensed ls ∧ entries = entries'))) := by
  by_cases hrw : d.is_rewritten
  · left
    refine ⟨hrw, ?_⟩
    simpa [licCheckDeps, hrw] using h
  · right
    refine ⟨by simpa using hrw, ?_⟩
    simp only [licCheckDeps, if_neg hrw] at h
    split at h
    · simp at h
    · rename_i rp hres
      split at h
      · simp at h
      · simp at h
      · rename_i lic hrec
        split at h
        · simp at h
        · simp at h
        · rename_i entries' hrest
          cases lic with
          | Unlicensed reason =>
            simp only [Option.some.injEq, Except.ok.injEq] at h
            exact ⟨rp, .Unlicensed reason, entries', hres, hrec, hrest,
              Or.inl ⟨reason, rfl, h.symm⟩⟩
          | Licensed ls =>
            simp only [Option.some.injEq, Except.ok.injEq] at h
            exact ⟨rp, .Licensed ls, entries', hres, hrec, hrest,
              Or.inr ⟨ls, rfl, h.symm⟩⟩

/-- Every non-rewritten dependency whose resolved package checks as
unlicensed contributes its entry to the collected list — the loop never
stops at the first unlicensed dependency. -/
theorem licCheckDeps_collects_all
    (recurse : Package → Option (Except String PackageLicense))
    (reg : PackageRegistry) :
    ∀ (deps : List LockDependency) (d : LockDependency)
      (entries : List (String × String × UnlicensedPackageReason))
      (rp : Nat × Package) (reason : UnlicensedPackageReason),
      d ∈ deps →
      d.is_rewritten = false →
      resolveLockDependencyToPackage reg d = some rp →
      recurse rp.2 = some (.ok (.Unlicensed reason)) →
      licCheckDeps recurse reg deps = some (.ok entries) →
      (d.registry_name, d.version.toStr, reason) ∈ entries := by
  intro deps
  induction deps with
  | nil => intro d entries rp reason hd; exact absurd hd (List.not_mem_nil d)
  | cons d' rest ih =>
    intro d entries rp reason hd hnr hres hrec hL
    rcases licCheckDeps_cons_inv recurse reg d' rest entries hL with
      ⟨hrw', hL'⟩ | ⟨hrw', rp', lic', entries', hres', hrec', hL', hsplit⟩
    · rcases List.mem_cons.mp hd with rfl | hd'
      · rw [hnr] at hrw'; cases hrw'
      · exact ih d entries rp reason hd' hnr hres hrec hL'
    · rcases List.mem_cons.mp hd with rfl | hd'
      · rw [hres] at hres'
        cases hres'
        rw [hrec] at hrec'
        simp only [Option.some.injEq, Except.ok.injEq] at hrec'
        rcases hsplit with ⟨reason', hlic, hent⟩ | ⟨ls, hlic, hent⟩
        · rw [hlic] at hrec'
          injection hrec' with hinj
          subst hinj
          rw [hent]
          exact List.mem_cons_self _ _
        · rw [hlic] at hrec'
          simp at hrec'
      · rcases hsplit with ⟨reason', _, hent⟩ | ⟨ls, _, hent⟩
        · rw [hent]
          exact List.mem_cons_of_mem _
            (ih d entries' rp reason hd' hnr hres hrec hL')
        · rw [hent]
          exact ih d entries' rp reason hd' hnr hres hrec hL'

/-- When a package's own scripts are clean and the dependency loop
yields an unlicensed-dependencies verdict, the verdict's list is
exactly the loop's collected list. -/
theorem isPLF_deps_inv (rules : RewriteRules) (reg : PackageRegistry)
    (fuel : Nat) (p : Package) (deps : List LockDependency)
    (entries : List (String × String × UnlicensedPackageReason))
    (hlook : lookupLicenses p.licenses .Unlicensed = none)
    (hdeps : parseLockDependencies rules p.lock = .ok deps)
    (h : isPackageLicensedFuel rules reg (fuel + 1) p =
      some (.ok (.Unlicensed (.UnlicensedDependencies entries)))) :
    licCheckDeps (isPackageLicensedFuel rules reg fuel) reg deps =
      some (.ok entries) := by
  simp only [isPackageLicensedFuel, hlook, hdeps] at h
  split at h
  · simp at h
  · simp at h
  · simp at h
  · rename_i e es hmatch
    simp only [Option.some.injEq, Except.ok.injEq,
      PackageLicense.Unlicensed.injEq,
      UnlicensedPackageReason.UnlicensedDependencies.injEq] at h
    rw [← h]
    exact hmatch

/-- `C3` (amended): when a package's own files contain unlicensed
scripts, the verdict reports exactly those files and its dependencies
are never examined; only when its own files are clean does the check
recurse, and then *every* non-rewritten dependency whose resolved
package checks as unlicensed appears in the returned list (the loop
does not stop at the first blocking dependency, but it also does not
merge a package's own files with dependency files). -/
theorem C3_aggregation_amended :
    (∀ (rules : RewriteRules) (reg : PackageRegistry) (fuel : Nat)
        (p : Package) (files : List String),
      lookupLicenses p.licenses .Unlicensed = some files →
      isPackageLicensedFuel rules reg (fuel + 1) p =
        some (.ok (.Unlicensed (.UnlicensedScripts files)))) ∧
    (∀ (rules : RewriteRules) (reg : PackageRegistry) (fuel : Nat)
        (p : Package) (deps : List LockDependency) (d : LockDependency)
        (entries : List (String × String × UnlicensedPackageReason))
        (rp : Nat × Package) (reason : UnlicensedPackageReason),
      lookupLicenses p.licenses .Unlicensed = none →
      parseLockDependencies rules p.lock = .ok deps →
      d ∈ deps →
      d.is_rewritten = false →
      resolveLockDependencyToPackage reg d = some rp →
      isPackageLicensedFuel rules reg fuel rp.2 =
        some (.ok (.Unlicensed reason)) →
      isPackageLicensedFuel rules reg (fuel + 1) p =
        some (.ok (.Unlicensed (.UnlicensedDependencies entries))) →
      (d.registry_name, d.version.toStr, reason) ∈ entries) := by
  constructor
  · intro rules reg fuel p files hlook
    simp only [isPackageLicensedFuel, hlook]
  · intro rules reg fuel p deps d entries rp reason hlook hdeps hd hnr hres
      hrec hres2
    exact licCheckDeps_collects_all (isPackageLicensedFuel rules reg fuel)
      reg deps d entries rp reason hd hnr hres hrec
      (isPLF_deps_inv rules reg fuel p deps entries hlook hdeps hres2)

/-! ### C7: determinism and order-independence -/

/-- The text scan yields `Unlicensed` exactly when it started from
`Unlicensed` and no reference text scored strictly above the incoming
best. -/
theorem scanTexts_unl_iff (scoreOf : ScoreFn) (header name : String) :
    ∀ (ts : List String) (top : ScriptLicense) (hi : ℚ),
      ((scanTexts scoreOf header name ts (top, hi)).1 = .Unlicensed ↔
        (top = .Unlicensed ∧ ∀ t ∈ ts, scoreOf header t ≤ hi)) := by
  intro ts
  induction ts with
  | nil =>
    intro top hi
    simp [scanTexts]
  | cons t rest ih =>
    intro top hi
    by_cases hlt : hi < scoreOf header t
    · simp only [scanTexts, if_pos hlt]
      constructor
      · intro hU
        have := (ih (.Licensed name) (scoreOf header t)).mp hU
        cases this.1
      · rintro ⟨_, hall⟩
        exact absurd (hall t (List.mem_cons_self t rest)) (not_le.mpr hlt)
    · simp only [scanTexts, if_neg hlt]
      rw [ih top hi]
      constructor
      · rintro ⟨ht, hrest⟩
        refine ⟨ht, ?_⟩
        intro u hu
        rcases List.mem_cons.mp hu with rfl | hu'
        · exact not_lt.mp hlt
        · exact hrest u hu'
      · rintro ⟨ht, hall⟩
        exact ⟨ht, fun u hu => hall u (List.mem_cons_of_mem t hu)⟩

/-- The corpus scan yields `Unlicensed` exactly when it started from
`Unlicensed` and no corpus text scored strictly above the incoming
best. -/
theorem scanCorpus_unl_iff (scoreOf : ScoreFn) (header : String) :
    ∀ (c : LicenseCorpus) (top : ScriptLicense) (hi : ℚ),
      ((scanCorpus scoreOf header c (top, hi)).1 = .Unlicensed ↔
        (top = .Unlicensed ∧ ∀ p ∈ c, ∀ t ∈ p.2, scoreOf header t ≤ hi)) := by
  intro c
  induction c with
  | nil =>
    intro top hi
    simp [scanCorpus]
  | cons p rest ih =>
    intro top hi
    obtain ⟨name, texts⟩ := p
    simp only [scanCorpus]
    rcases hacc : scanTexts scoreOf header name texts (top, hi) with ⟨top', hi'⟩
    rw [ih top' hi']
    constructor
    · rintro ⟨ht', hrest⟩
      have h1 := (scanTexts_unl_iff scoreOf header name texts top hi).mp
        (by rw [hacc]; exact ht')
      obtain ⟨htop, htexts⟩ := h1
      have h2 := scanTexts_no_update scoreOf header name texts top hi htexts
      rw [h2] at hacc
      injection hacc with e1 e2
      subst e1
      subst e2
      refine ⟨htop, ?_⟩
      intro q hq t ht
      rcases List.mem_cons.mp hq with rfl | hq'
      · exact htexts t ht
      · exact hrest q hq' t ht
    · rintro ⟨htop, hall⟩
      have htexts : ∀ t ∈ texts, scoreOf header t ≤ hi :=
        fun t ht => hall (name, texts) (List.mem_cons_self _ rest) t ht
      have h2 := scanTexts_no_update scoreOf header name texts top hi htexts
      rw [h2] at hacc
      injection hacc with e1 e2
      subst e1
      subst e2
      exact ⟨htop, fun q hq t ht => hall q (List.mem_cons_of_mem _ hq) t ht⟩

/-- The path list recorded under one verdict, empty when the verdict
never occurred. -/
def licFiles (m : List (ScriptLicense × List String))
    (lic : ScriptLicense) : List String :=
  (lookupLicenses m lic).getD []

/-- What `classify-and-record` keeps of one walked file for one
verdict. -/
def classifyKept (scoreOf : ScoreFn) (corpus : LicenseCorpus)
    (lic : ScriptLicense) (pf : String × String) : Option String :=
  if keepFile pf.1 && (classifyScriptSource scoreOf corpus pf.2 == lic) then
    some pf.1
  else none

theorem licFiles_insert (m : List (ScriptLicense × List String))
    (lic v : ScriptLicense) (p : String) :
    licFiles (insertLicense m v p) lic =
      if v = lic then licFiles m lic ++ [p] else licFiles m lic := by
  induction m with
  | nil =>
    by_cases hv : v = lic
    · subst hv
      simp [licFiles, insertLicense, lookupLicenses]
    · simp [licFiles, insertLicense, lookupLicenses, hv, Ne.symm hv]
  | cons kv rest ih =>
    obtain ⟨k, ps⟩ := kv
    by_cases hkv : k = v
    · subst hkv
      by_cases hkl : k = lic
      · subst hkl
        simp [licFiles, insertLicense, lookupLicenses]
      · simp [licFiles, insertLicense, lookupLicenses, hkl, Ne.symm hkl]
    · by_cases hkl : k = lic
      · subst hkl
        have hvl : ¬ v = k := fun h => hkv h.symm
        simp [licFiles, insertLicense, lookupLicenses, hkv, hvl]
      · simp only [insertLicense, if_neg hkv]
        have hL : ∀ m', licFiles ((k, ps) :: m') lic = licFiles m' lic := by
          intro m'
          simp [licFiles, lookupLicenses, hkl]
        rw [hL, hL, ih]

theorem licFiles_fold (scoreOf : ScoreFn) (corpus : LicenseCorpus)
    (lic : ScriptLicense) :
    ∀ (fs : List (String × String)) (m : List (ScriptLicense × List String)),
      licFiles (fs.foldl (licenseStep scoreOf corpus) m) lic =
        licFiles m lic ++ fs.filterMap (classifyKept scoreOf corpus lic) := by
  intro fs
  induction fs with
  | nil => intro m; simp
  | cons pf rest ih =>
    intro m
    rw [List.foldl_cons, ih]
    by_cases hk : keepFile pf.1 = true
    · by_cases hv : classifyScriptSource scoreOf corpus pf.2 = lic
      · have hstep : licenseStep scoreOf corpus m pf =
            insertLicense m (classifyScriptSource scoreOf corpus pf.2) pf.1 := by
          simp [licenseStep, hk]
        rw [hstep, licFiles_insert, if_pos hv]
        have hcl : classifyKept scoreOf corpus lic pf = some pf.1 := by
          simp [classifyKept, hk, hv]
        rw [List.filterMap_cons, hcl, List.append_assoc]
        rfl
      · have hstep : licenseStep scoreOf corpus m pf =
            insertLicense m (classifyScriptSource scoreOf corpus pf.2) pf.1 := by
          simp [licenseStep, hk]
        rw [hstep, licFiles_insert, if_neg hv]
        have hcl : classifyKept scoreOf corpus lic pf = none := by
          simp [classifyKept, hk, hv]
        rw [List.filterMap_cons, hcl]
    · have hstep : licenseStep scoreOf corpus m pf = m := by
        simp [licenseStep, hk]
      have hcl : classifyKept scoreOf corpus lic pf = none := by
        simp [classifyKept, hk]
      rw [hstep, List.filterMap_cons, hcl]

/-- `C7` counterexample: classification is *not* independent of the
corpus iteration order down to the matched license name.  The corpus
lives in a `HashMap` whose iteration order is not fixed across runs;
with two licenses tying strictly above the threshold, the first one
iterated wins (`score > highest_score` is strict), so the two orders of
the same corpus yield different license names for the same header. -/
theorem C7_tie_order_counterexample :
    computeHeaderLicense (fun _ _ => mkRat 24 25)
        [("a", ["t"]), ("b", ["t"])] "h" = .Licensed "a" ∧
    computeHeaderLicense (fun _ _ => mkRat 24 25)
        [("b", ["t"]), ("a", ["t"])] "h" = .Licensed "b" ∧
    [("a", ["t"]), ("b", ["t"])].Perm [("b", ["t"]), ("a", ["t"])] := by
  exact ⟨rfl, rfl, List.Perm.swap _ _ _⟩

/-- `C7` (amended): classification of a fixed source text is a pure
function of the text, the corpus and the scorer (deterministic within
one table); the licensed/unlicensed *status* is independent of the
corpus iteration order, and the per-package verdict map is independent
of the file discovery order up to the order inside each verdict's path
list (the lists are permutations; the matched license *name* may
depend on corpus order when scores tie, per the counterexample). -/
theorem C7_order_independence_amended :
    (∀ (scoreOf : ScoreFn) (header : String) (c₁ c₂ : LicenseCorpus),
      c₁.Perm c₂ →
      (computeHeaderLicense scoreOf c₁ header = .Unlicensed ↔
        computeHeaderLicense scoreOf c₂ header = .Unlicensed)) ∧
    (∀ (scoreOf : ScoreFn) (corpus : LicenseCorpus) (lic : ScriptLicense)
        (fs₁ fs₂ : List (String × String)),
      fs₁.Perm fs₂ →
      (licFiles (computeLicenseInformation scoreOf corpus fs₁) lic).Perm
        (licFiles (computeLicenseInformation scoreOf corpus fs₂) lic)) := by
  constructor
  · intro scoreOf header c₁ c₂ hp
    unfold computeHeaderLicense
    rw [scanCorpus_unl_iff, scanCorpus_unl_iff]
    constructor
    · rintro ⟨h1, h2⟩
      exact ⟨h1, fun p hp' => h2 p (hp.mem_iff.mpr hp')⟩
    · rintro ⟨h1, h2⟩
      exact ⟨h1, fun p hp' => h2 p (hp.mem_iff.mp hp')⟩
  · intro scoreOf corpus lic fs₁ fs₂ hp
    unfold computeLicenseInformation
    rw [licFiles_fold, licFiles_fold]
    exact List.Perm.filterMap (classifyKept scoreOf corpus lic) hp

/-! ### Tree-walk machinery: invariants, monotonicity, termination -/

/-- The numeric references present in the registry. -/
def regRefs (reg : PackageRegistry) : List Nat := reg.packages.map Prod.fst

/-- The stream state after `compute_package_tree_internal` has written
the package line and prepared the indent stack for the dependency loop
(`package_tree.rs:30-52`). -/
def treeStateAfterWrite (rules : RewriteRules) (st : Stream) (p : Package)
    (fin : Bool) : Stream :=
  let currentIndent := st.indents.length
  let line := "core-packages/" ++ p.name.registry_name ++ " (v" ++
    p.lock.version ++ ")" ++
    (if isPackageRewritten rules p then " (rewritten)" else "")
  let st2 := writeLine st line fin
  { st2 with indents :=
      (st2.indents.set (currentIndent - 1)
        (if fin then Indent.None else Indent.Some)) ++ [Indent.Some] }

theorem find_rnav_mem (reg : PackageRegistry) (n v : String)
    (rp : Nat × Package)
    (h : findByRegistryNameAndVersion reg n v = some rp) :
    rp.1 ∈ regRefs reg := by
  unfold findByRegistryNameAndVersion at h
  exact List.mem_map_of_mem Prod.fst (List.mem_of_find?_eq_some h)

/-- The invariant the tree walk maintains on `previous_packages`:
distinct references, all present in the registry. -/
def treeInv (reg : PackageRegistry) (prev : List Nat) : Prop :=
  prev.Nodup ∧ ∀ r ∈ prev, r ∈ regRefs reg

theorem treeInv_push (reg : PackageRegistry) (prev : List Nat) (r : Nat)
    (hI : treeInv reg prev) (hmem : r ∈ regRefs reg) (hnew : r ∉ prev) :
    treeInv reg (prev ++ [r]) := by
  obtain ⟨hnd, hsub⟩ := hI
  constructor
  · refine List.Nodup.append hnd (List.nodup_singleton r) ?_
    intro b hb hb'
    rw [List.mem_singleton] at hb'
    subst hb'
    exact hnew hb
  · intro b hb
    rcases List.mem_append.mp hb with hb | hb
    · exact hsub b hb
    · rw [List.mem_singleton] at hb
      subst hb
      exact hmem

theorem treeInv_length_le (reg : PackageRegistry) (prev : List Nat)
    (hI : treeInv reg prev) : prev.length ≤ (regRefs reg).length :=
  ((hI.1.subperm (fun _ h => hI.2 _ h)).length_le)

/-- The contract a tree walker at `N` remaining levels satisfies:
the reference list only grows (its input is a prefix of its output),
the invariant is preserved, and with enough fuel for the distinct
references that can still be pushed the walk completes. -/
def TreeContract (reg : PackageRegistry) (N : Nat)
    (f : Stream → List Nat → Package → Bool →
      Option (Except String (Stream × List Nat))) : Prop :=
  ∀ st prev p fin,
    (∀ st' prev', f st prev p fin = some (.ok (st', prev')) →
      prev <+: prev' ∧ (treeInv reg prev → treeInv reg prev')) ∧
    (treeInv reg prev → (regRefs reg).length < N + prev.length →
      f st prev p fin ≠ none)

theorem processTreeDeps_contract (rules : RewriteRules)
    (reg : PackageRegistry) (N : Nat)
    (recurse : Stream → List Nat → Package → Bool →
      Option (Except String (Stream × List Nat)))
    (hrec : TreeContract reg N recurse) :
    ∀ (deps : List LockDependency) (st : Stream) (prev : List Nat),
      (∀ st' prev',
        processTreeDeps rules reg recurse st prev deps =
          some (.ok (st', prev')) →
        prev <+: prev' ∧ (treeInv reg prev → treeInv reg prev')) ∧
      (treeInv reg prev →
        (regRefs reg).length < N + 1 + prev.length →
        processTreeDeps rules reg recurse st prev deps ≠ none) := by
  intro deps
  induction deps with
  | nil =>
    intro st prev
    constructor
    · intro st' prev' h
      simp only [processTreeDeps, Option.some.injEq, Except.ok.injEq,
        Prod.mk.injEq] at h
      obtain ⟨-, h2⟩ := h
      subst h2
      exact ⟨List.prefix_refl prev, fun hI => hI⟩
    · intro _ _
      simp [processTreeDeps]
  | cons d rest ih =>
    intro st prev
    by_cases hrw : d.is_rewritten = true
    · cases hfind : findByRegistryNameAndVersion reg d.registry_name
        d.version.toStr with
      | none =>
        have hstep : processTreeDeps rules reg recurse st prev (d :: rest) =
            some (.error "Dependency does not exist in registry") := by
          simp [processTreeDeps, hrw, hfind]
        rw [hstep]
        constructor
        · intro st' prev' h
          simp at h
        · intro _ _
          simp
      | some rp =>
        by_cases hct : prev.contains rp.1 = true
        · have hmem2 : rp.1 ∈ prev := by simpa using hct
          have hstep : processTreeDeps rules reg recurse st prev (d :: rest) =
              some (.ok (st, prev)) := by
            simp [processTreeDeps, hrw, hfind, hmem2]
          rw [hstep]
          constructor
          · intro st' prev' h
            simp only [Option.some.injEq, Except.ok.injEq,
              Prod.mk.injEq] at h
            obtain ⟨-, h2⟩ := h
            subst h2
            exact ⟨List.prefix_refl prev, fun hI => hI⟩
          · intro _ _
            simp
        · have hnotmem : rp.1 ∉ prev := by
            intro hmem
            exact hct (by simpa using hmem)
          have hmemreg : rp.1 ∈ regRefs reg := find_rnav_mem reg _ _ rp hfind
          have hstep : processTreeDeps rules reg recurse st prev (d :: rest) =
              (match recurse st (prev ++ [rp.1]) rp.2
                  (peekIsLast reg (prev ++ [rp.1]) rest) with
               | none => none
               | some (.error e) => some (.error e)
               | some (.ok (st2, prev3)) =>
                 processTreeDeps rules reg recurse st2 prev3 rest) := by
            simp [processTreeDeps, hrw, hfind, hnotmem]
          rw [hstep]
          cases hr : recurse st (prev ++ [rp.1]) rp.2
              (peekIsLast reg (prev ++ [rp.1]) rest) with
          | none =>
            constructor
            · intro st' prev' h
              simp at h
            · intro hI hlen
              exfalso
              have hI2 := treeInv_push reg prev rp.1 hI hmemreg hnotmem
              have hlen2 : (regRefs reg).length < N + (prev ++ [rp.1]).length := by
                simp only [List.length_append, List.length_singleton]
                omega
              exact (hrec st (prev ++ [rp.1]) rp.2 _).2 hI2 hlen2 hr
          | some res =>
            cases res with
            | error e =>
              constructor
              · intro st' prev' h
                simp at h
              · intro _ _
                simp
            | ok pr =>
              obtain ⟨st2, prev3⟩ := pr
              have hpush : prev <+: prev ++ [rp.1] := List.prefix_append prev [rp.1]
              have hrc := (hrec st (prev ++ [rp.1]) rp.2 _).1 st2 prev3 hr
              obtain ⟨hpre23, hinv23⟩ := hrc
              constructor
              · intro st' prev' h
                have hih := (ih st2 prev3).1 st' prev' h
                obtain ⟨hpre3, hinv3⟩ := hih
                refine ⟨hpush.trans (hpre23.trans hpre3), ?_⟩
                intro hI
                exact hinv3 (hinv23 (treeInv_push reg prev rp.1 hI hmemreg hnotmem))
              · intro hI hlen
                have hI2 := treeInv_push reg prev rp.1 hI hmemreg hnotmem
                have hI3 := hinv23 hI2
                have hlen3 : (regRefs reg).length < N + 1 + prev3.length := by
                  have h1 : (prev ++ [rp.1]).length ≤ prev3.length :=
                    hpre23.length_le
                  simp only [List.length_append, List.length_singleton] at h1
                  omega
                exact (ih st2 prev3).2 hI3 hlen3
    · have hstep : processTreeDeps rules reg recurse st prev (d :: rest) =
          processTreeDeps rules reg recurse
            (writeLine st
              (d.registry_name ++ " (v" ++ d.version.toStr ++ ") (external)")
              false)
            prev rest := by
        simp [processTreeDeps, hrw]
      rw [hstep]
      exact ih _ prev

/-- The fuel-indexed tree renderer satisfies the walk contract at its
own fuel. -/
theorem computeTreeFuel_contract (rules : RewriteRules)
    (reg : PackageRegistry) :
    ∀ fuel : Nat, TreeContract reg fuel (computeTreeFuel rules reg fuel) := by
  intro fuel
  induction fuel with
  | zero =>
    intro st prev p fin
    constructor
    · intro st' prev' h
      simp [computeTreeFuel] at h
    · intro hI hlen
      exfalso
      have := treeInv_length_le reg prev hI
      omega
  | succ n ih =>
    intro st prev p fin
    cases hparse : parseLockDependencies rules p.lock with
    | error e =>
      have hstep : computeTreeFuel rules reg (n + 1) st prev p fin =
          some (.ok (writeLine st
            ("core-packages/" ++ p.name.registry_name ++ " (v" ++
              p.lock.version ++ ")" ++
              (if isPackageRewritten rules p then " (rewritten)" else ""))
            fin, prev)) := by
        simp [computeTreeFuel, hparse]
      rw [hstep]
      constructor
      · intro st' prev' h
        simp only [Option.some.injEq, Except.ok.injEq, Prod.mk.injEq] at h
        obtain ⟨-, h2⟩ := h
        subst h2
        exact ⟨List.prefix_refl prev, fun hI => hI⟩
      · intro _ _
        simp
    | ok deps =>
      have hlist := processTreeDeps_contract rules reg n
        (computeTreeFuel rules reg n) ih deps
      have hstep : computeTreeFuel rules reg (n + 1) st prev p fin =
          (match processTreeDeps rules reg (computeTreeFuel rules reg n)
              (treeStateAfterWrite rules st p fin) prev deps with
           | none => none
           | some (.error e) => some (.error e)
           | some (.ok (st4, prev4)) =>
             some (.ok ({ st4 with indents := st4.indents.dropLast }, prev4))) := by
        simp [computeTreeFuel, hparse, treeStateAfterWrite]
      rw [hstep]
      cases hp : processTreeDeps rules reg (computeTreeFuel rules reg n)
          (treeStateAfterWrite rules st p fin) prev deps with
      | none =>
        constructor
        · intro st' prev' h
          simp at h
        · intro hI hlen
          exfalso
          exact (hlist (treeStateAfterWrite rules st p fin) prev).2 hI
            (by omega) hp
      | some res =>
        cases res with
        | error e =>
          constructor
          · intro st' prev' h
            simp at h
          · intro _ _
            simp
        | ok pr =>
          obtain ⟨st4, prev4⟩ := pr
          have hc := (hlist (treeStateAfterWrite rules st p fin) prev).1
            st4 prev4 hp
          constructor
          · intro st' prev' h
            simp only [Option.some.injEq, Except.ok.injEq, Prod.mk.injEq] at h
            obtain ⟨-, h2⟩ := h
            subst h2
            exact hc
          · intro _ _
            simp

/-! ### C1: cycle handling -/

/-- A dependency whose recursive license check runs out of fuel makes
the whole loop run out of fuel. -/
theorem licCheckDeps_none_of_recurse_none
    (recurse : Package → Option (Except String PackageLicense))
    (reg : PackageRegistry) (d : LockDependency) (rest : List LockDependency)
    (rp : Nat × Package)
    (hnr : d.is_rewritten = false)
    (hres : resolveLockDependencyToPackage reg d = some rp)
    (hrec : recurse rp.2 = none) :
    licCheckDeps recurse reg (d :: rest) = none := by
  simp [licCheckDeps, hnr, hres, hrec]

/-- A package whose dependency loop runs out of fuel makes the check
run out of fuel. -/
theorem isPLF_succ_none (rules : RewriteRules) (reg : PackageRegistry)
    (fuel : Nat) (p : Package) (deps : List LockDependency)
    (hlook : lookupLicenses p.licenses .Unlicensed = none)
    (hdeps : parseLockDependencies rules p.lock = .ok deps)
    (hlcd : licCheckDeps (isPackageLicensedFuel rules reg fuel) reg deps =
      none) :
    isPackageLicensedFuel rules reg (fuel + 1) p = none := by
  simp [isPackageLicensedFuel, hlook, hdeps, hlcd]

/-- `C1` fixtures: a two-package dependency cycle
`pkg-a → pkg-b → pkg-a`, both fully licensed, neither dependency
rewritten. -/
def fxLockCA : PackageLock :=
  ⟨"PkgA", "1.0.0", "aaaa1111", "src", some ["PkgB PkgB 1.0.0 src"]⟩

def fxLockCB : PackageLock :=
  ⟨"PkgB", "1.0.0", "bbbb2222", "src", some ["PkgA PkgA 1.0.0 src"]⟩

def fxPkgCA : Package :=
  ⟨"/idx/PkgA", ⟨"PkgA-path", "pkg-a", none, none⟩, fxLockCA,
    [(.Licensed "MIT", ["a.lua"])]⟩

def fxPkgCB : Package :=
  ⟨"/idx/PkgB", ⟨"PkgB-path", "pkg-b", none, none⟩, fxLockCB,
    [(.Licensed "MIT", ["b.lua"])]⟩

def fxRegCycle : PackageRegistry := ⟨[(1, fxPkgCA), (2, fxPkgCB)]⟩

/-- On the two-package cycle the recursive license check never
completes, at any fuel bound: the source recursion carries no
currently-visiting set, so `A` recurses into `B` and `B` back into
`A` forever. -/
theorem licCycle_diverges :
    ∀ fuel : Nat,
      isPackageLicensedFuel [] fxRegCycle fuel fxPkgCA = none ∧
      isPackageLicensedFuel [] fxRegCycle fuel fxPkgCB = none := by
  intro fuel
  induction fuel with
  | zero => exact ⟨rfl, rfl⟩
  | succ n ih =>
    obtain ⟨ihA, ihB⟩ := ih
    constructor
    · exact isPLF_succ_none [] fxRegCycle n fxPkgCA
        [⟨"pkg-b", "PkgB", .SemVer "1.0.0", false⟩] rfl rfl
        (licCheckDeps_none_of_recurse_none _ fxRegCycle _ [] (2, fxPkgCB)
          rfl rfl ihB)
    · exact isPLF_succ_none [] fxRegCycle n fxPkgCB
        [⟨"pkg-a", "PkgA", .SemVer "1.0.0", false⟩] rfl rfl
        (licCheckDeps_none_of_recurse_none _ fxRegCycle _ [] (1, fxPkgCA)
          rfl rfl ihA)

/-- `C1` counterexample: on a registry whose dependency graph is the
cycle `pkg-a → pkg-b → pkg-a`, the license check
(`Package::is_package_licensed`) does *not* terminate — it maintains no
currently-visiting set, and the fuel-indexed embedding yields no result
at *every* fuel bound — while tree rendering of the same registry does
terminate.  This refutes the claim that both terminate and that the
license check treats a re-visited package as licensed. -/
theorem C1_no_cycle_guard_counterexample :
    (∀ fuel : Nat, isPackageLicensedFuel [] fxRegCycle fuel fxPkgCA = none) ∧
    computePackageTree [] fxRegCycle 3 fxPkgCA =
      some (.ok
        "├──core-packages/pkg-a (v1.0.0)\n│  ├──pkg-b (v1.0.0) (external)") := by
  exact ⟨fun fuel => (licCycle_diverges fuel).1, rfl⟩

/-- `C1` (amended): tree rendering terminates on *every* registry —
cyclic or not — whenever the fuel exceeds the number of registered
packages, because `compute_package_tree_internal` pushes a not-yet-seen
reference before every descent and never descends into a reference on
`previous_packages`; the recursive license check, by contrast, has no
visiting set and does not terminate on a dependency cycle of
non-rewritten dependencies (it diverges on the concrete 2-cycle at
every fuel bound). -/
theorem C1_cycle_termination_amended :
    (∀ (rules : RewriteRules) (reg : PackageRegistry) (fuel : Nat)
        (p : Package),
      (regRefs reg).length < fuel →
      computePackageTree rules reg fuel p ≠ none) ∧
    (∀ fuel : Nat,
      isPackageLicensedFuel [] fxRegCycle fuel fxPkgCB = none) := by
  constructor
  · intro rules reg fuel p hlen
    unfold computePackageTree
    have hI : treeInv reg [] := ⟨List.nodup_nil, by intro r hr; simp at hr⟩
    have hne := (computeTreeFuel_contract rules reg fuel
      { stream := "", indents := [Indent.Some] } [] p false).2 hI
      (by simpa using hlen)
    cases h : computeTreeFuel rules reg fuel
        { stream := "", indents := [Indent.Some] } [] p false with
    | none => exact absurd h hne
    | some res =>
      cases res with
      | error e => simp
      | ok pr => simp

  · exact fun fuel => (licCycle_diverges fuel).2

/-! ### C10: rendering of revisited dependencies -/

/-- `C10` fixtures: `pkg-a` declares the same rewritten dependency
twice; both lines resolve to `pkg-b`. -/
def fxRulesT : RewriteRules :=
  [("r1", ⟨"pkg-b", "1.0.0", [⟨"pkg-b0", "0.1.0", "rewritten dep"⟩]⟩)]

def fxLockTA : PackageLock :=
  ⟨"PkgA", "1.0.0", "aaaa", "src",
    some ["X pkg-b0 0.1.0 s", "Y pkg-b0 0.1.0 s"]⟩

def fxLockTB : PackageLock := ⟨"PkgB", "1.0.0", "bbbb", "src", none⟩

def fxPkgTA : Package := ⟨"/i/A", ⟨"A-path", "pkg-a", none, none⟩, fxLockTA, []⟩

def fxPkgTB : Package := ⟨"/i/B", ⟨"B-path", "pkg-b", none, none⟩, fxLockTB, []⟩

def fxRegT : PackageRegistry := ⟨[(1, fxPkgTA), (2, fxPkgTB)]⟩

/-- `C10` counterexample: `pkg-a`'s lock declares `pkg-b` twice (both
rewritten).  The second occurrence resolves to the already-visited
reference, and the renderer *breaks out of the dependency loop* without
printing it: the rendered tree contains a single `pkg-b` line, not a
leaf for the revisited dependency, refuting "prints that dependency as
a leaf". -/
theorem C10_break_without_leaf_counterexample :
    parseLockDependencies fxRulesT fxLockTA =
      .ok [⟨"pkg-b", "X", .SemVer "1.0.0", true⟩,
           ⟨"pkg-b", "Y", .SemVer "1.0.0", true⟩] ∧
    computePackageTree fxRulesT fxRegT 10 fxPkgTA =
      some (.ok
        "├──core-packages/pkg-a (v1.0.0)\n│  └──core-packages/pkg-b (v1.0.0)") := by
  exact ⟨rfl, rfl⟩

/-- A dependency resolving to an already-visited reference stops the
dependency loop: nothing is printed for it and the remaining siblings
are not processed. -/
theorem processTreeDeps_break (rules : RewriteRules) (reg : PackageRegistry)
    (recurse : Stream → List Nat → Package → Bool →
      Option (Except String (Stream × List Nat)))
    (st : Stream) (prev : List Nat) (d : LockDependency)
    (rest : List LockDependency) (rp : Nat × Package)
    (hrw : d.is_rewritten = true)
    (hfind : findByRegistryNameAndVersion reg d.registry_name
      d.version.toStr = some rp)
    (hmem : rp.1 ∈ prev) :
    processTreeDeps rules reg recurse st prev (d :: rest) =
      some (.ok (st, prev)) := by
  simp [processTreeDeps, hrw, hfind, hmem]

/-- When the single next sibling resolves to a reference already
visited after the current push, rendering `d :: next :: rest` equals
rendering `[d]` alone: the peek marks `d` as the last child and the
loop breaks at `next`. -/
theorem processTreeDeps_skip_visited_sibling (rules : RewriteRules)
    (reg : PackageRegistry) (fuel : Nat) (st : Stream) (prev : List Nat)
    (d next : LockDependency) (rest : List LockDependency)
    (rp nrp : Nat × Package)
    (hrw : d.is_rewritten = true)
    (hrwn : next.is_rewritten = true)
    (hfind : findByRegistryNameAndVersion reg d.registry_name
      d.version.toStr = some rp)
    (hnot : rp.1 ∉ prev)
    (hfindn : findByRegistryNameAndVersion reg next.registry_name
      next.version.toStr = some nrp)
    (hmemn : nrp.1 ∈ prev ++ [rp.1]) :
    processTreeDeps rules reg (computeTreeFuel rules reg fuel) st prev
        (d :: next :: rest) =
      processTreeDeps rules reg (computeTreeFuel rules reg fuel) st prev
        [d] := by
  have hpeek : peekIsLast reg (prev ++ [rp.1]) (next :: rest) = true := by
    simp [peekIsLast, hfindn, hmemn]
  have hstepL : processTreeDeps rules reg (computeTreeFuel rules reg fuel)
      st prev (d :: next :: rest) =
      (match computeTreeFuel rules reg fuel st (prev ++ [rp.1]) rp.2
          (peekIsLast reg (prev ++ [rp.1]) (next :: rest)) with
       | none => none
       | some (.error e) => some (.error e)
       | some (.ok (st2, prev3)) =>
         processTreeDeps rules reg (computeTreeFuel rules reg fuel)
           st2 prev3 (next :: rest)) := by
    simp [processTreeDeps, hrw, hfind, hnot]
  have hstepR : processTreeDeps rules reg (computeTreeFuel rules reg fuel)
      st prev [d] =
      (match computeTreeFuel rules reg fuel st (prev ++ [rp.1]) rp.2 true with
       | none => none
       | some (.error e) => some (.error e)
       | some (.ok (st2, prev3)) =>
         processTreeDeps rules reg (computeTreeFuel rules reg fuel)
           st2 prev3 []) := by
    simp [processTreeDeps, peekIsLast, hrw, hfind, hnot]
  rw [hstepL, hstepR, hpeek]
  cases hr : computeTreeFuel rules reg fuel st (prev ++ [rp.1]) rp.2 true with
  | none => rfl
  | some res =>
    cases res with
    | error e => rfl
    | ok pr =>
      obtain ⟨st2, prev3⟩ := pr
      have hpre := ((computeTreeFuel_contract rules reg fuel st
        (prev ++ [rp.1]) rp.2 true).1 st2 prev3 hr).1
      have hmem3 : nrp.1 ∈ prev3 := hpre.subset hmemn
      show processTreeDeps rules reg (computeTreeFuel rules reg fuel)
          st2 prev3 (next :: rest) =
        processTreeDeps rules reg (computeTreeFuel rules reg fuel)
          st2 prev3 []
      rw [processTreeDeps_break rules reg _ st2 prev3 next rest nrp
        hrwn hfindn hmem3]
      rfl

/-- `C10` (amended): a dependency whose reference was already visited
is *not* printed as a leaf — the dependency loop breaks, skipping it
and every remaining sibling — and the last-child connector of the
current dependency is decided by the one-ahead peek: when the next
sibling is already visited, rendering the sibling list equals rendering
the current dependency alone as the last child. -/
theorem C10_revisit_behaviour_amended :
    (∀ (rules : RewriteRules) (reg : PackageRegistry)
        (recurse : Stream → List Nat → Package → Bool →
          Option (Except String (Stream × List Nat)))
        (st : Stream) (prev : List Nat) (d : LockDependency)
        (rest : List LockDependency) (rp : Nat × Package),
      d.is_rewritten = true →
      findByRegistryNameAndVersion reg d.registry_name d.version.toStr =
        some rp →
      rp.1 ∈ prev →
      processTreeDeps rules reg recurse st prev (d :: rest) =
        some (.ok (st, prev))) ∧
    (∀ (rules : RewriteRules) (reg : PackageRegistry) (fuel : Nat)
        (st : Stream) (prev : List Nat) (d next : LockDependency)
        (rest : List LockDependency) (rp nrp : Nat × Package),
      d.is_rewritten = true →
      next.is_rewritten = true →
      findByRegistryNameAndVersion reg d.registry_name d.version.toStr =
        some rp →
      rp.1 ∉ prev →
      findByRegistryNameAndVersion reg next.registry_name
        next.version.toStr = some nrp →
      nrp.1 ∈ prev ++ [rp.1] →
      processTreeDeps rules reg (computeTreeFuel rules reg fuel) st prev
          (d :: next :: rest) =
        processTreeDeps rules reg (computeTreeFuel rules reg fuel) st prev
          [d]) := by
  constructor
  · intro rules reg recurse st prev d rest rp hrw hfind hmem
    exact processTreeDeps_break rules reg recurse st prev d rest rp
      hrw hfind hmem
  · intro rules reg fuel st prev d next rest rp nrp hrw hrwn hfind hnot
      hfindn hmemn
    exact processTreeDeps_skip_visited_sibling rules reg fuel st prev d next
      rest rp nrp hrw hrwn hfind hnot hfindn hmemn

end Extractor
